import Mathlib

/-!
Shallow embedding of the text-cleaning and sentiment-inference pipeline in
`src/clean_text.py` and `src/sentiment_predictor.py`.

External collaborators (the langdetect language detector, the Porter stemmer,
the nltk stopword corpus, the HuggingFace tokenizer and the two classification
models) are modelled as function parameters: the repository only orchestrates
calls to them, so every theorem quantifies over their behaviour.

Strings are modelled via their character lists.  Python's `str.lower` is
modelled on its ASCII fragment (it only matters up to the character filter
that follows it, which sends every non-`[a-z0-9?!]` character to a space).
-/

/-! ### Definitions: the embedded program -/

/-- Whitespace characters matched by Python's `\s` regex class and `str.split()`
(ASCII fragment: space, tab, newline, carriage return, vertical tab, form feed). -/
def isWsChar (c : Char) : Bool :=
  c = ' ' || c = '\t' || c = '\n' || c = '\r' || c = '\x0b' || c = '\x0c'

/-- The character class `[a-z0-9?!]` of the regex on line 29 of `clean_text.py`
(and line 110 of `sentiment_predictor.py`). -/
def allowedChar (c : Char) : Bool :=
  ('a' ≤ c && c ≤ 'z') || ('0' ≤ c && c ≤ '9') || c = '?' || c = '!'

/-- Per-character model of Python's `str.lower()` (ASCII fragment). -/
def lowerChar (c : Char) : Char :=
  if 'A' ≤ c ∧ c ≤ 'Z' then Char.ofNat (c.toNat + 32) else c

/-- One character of `re.sub('[^a-z0-9?!]', ' ', text)`: every character outside
the class is replaced by a space. -/
def replChar (c : Char) : Char :=
  if allowedChar c then c else ' '

/-- Accumulator worker for `words`: splits a character list into its maximal
runs of non-whitespace characters (`acc` holds the current run, reversed). -/
def wordsAux : List Char → List Char → List (List Char)
  | [], acc => if acc = [] then [] else [acc.reverse]
  | c :: cs, acc =>
    if isWsChar c then (if acc = [] then wordsAux cs [] else acc.reverse :: wordsAux cs [])
    else wordsAux cs (c :: acc)

/-- The maximal whitespace-free runs of a character list; this is Python's
`text.split()` (split on whitespace runs, discarding empty pieces). -/
def words (l : List Char) : List (List Char) := wordsAux l []

/-- Join word lists with single spaces; this is Python's `' '.join(parts)`. -/
def joinWords : List (List Char) → List Char
  | [] => []
  | [w] => w
  | w :: ws => w ++ ' ' :: joinWords ws

/-- `re.sub(r'\s+', ' ', text).strip()`: every maximal whitespace run becomes a
single space and leading/trailing whitespace is removed — equivalently, the
whitespace-free runs rejoined by single spaces. -/
def collapseWs (l : List Char) : List Char := joinWords (words l)

/-- The three unconditional stages shared by `CleanText.clean_text` and
`SentimentPredictor.clean_text`: lowercase, replace every character outside
`[a-z0-9?!]` by a space, collapse whitespace and strip. -/
def cleanChars (l : List Char) : List Char :=
  collapseWs ((l.map lowerChar).map replChar)

/-- `CleanText.clean_text` (clean_text.py lines 24–41).  `ps_stem` is the
external Porter stemmer `self.ps.stem`; `do_stemming` and `stopwords` are the
instance configuration.  When stemming is on or the stopword list is
non-empty, the text is split, stopwords are dropped, surviving tokens are
optionally stemmed, and the tokens are rejoined with single spaces. -/
def CleanText.clean_text (ps_stem : String → String) (do_stemming : Bool)
    (stopwords : List String) (text : String) : String :=
  let t := cleanChars text.data
  if do_stemming || decide (0 < stopwords.length) then
    let parts := words t
    let parts2 :=
      if do_stemming then
        (parts.filter (fun w => !(stopwords.contains (String.mk w)))).map
          (fun w => (ps_stem (String.mk w)).data)
      else
        parts.filter (fun w => !(stopwords.contains (String.mk w)))
    String.mk (joinWords parts2)
  else String.mk t

/-- `SentimentPredictor.clean_text` (sentiment_predictor.py lines 105–119).
`do_stemming` defaults to `False` in the source and `predict` never passes it;
the `True` branch refers to `self.ps`, which the class never defines, so it is
modelled with an explicit stemmer parameter. -/
def SentimentPredictor.clean_text (ps_stem : String → String) (do_stemming : Bool)
    (text : String) : String :=
  let t := cleanChars text.data
  if do_stemming then
    String.mk (joinWords ((words t).map (fun w => (ps_stem (String.mk w)).data)))
  else String.mk t

/-- The in-memory tabular dataset: each row is a pandas index paired with the
list of its (string) column values.  `itertuples()` yields the index followed
by the column values in order; the repository's passes destructure each such
tuple as `index, text, _, _`. -/
structure DataFrame where
  rows : List (Nat × List String)

/-- Outcome of a row-iterating pass: either it finishes with its accumulated
state, or tuple unpacking fails (Python `ValueError`) with the state
accumulated before the failing row. -/
inductive PassResult (α : Type) where
  | ok (val : α)
  | unpackError (sofar : α)

/-- `CleanText.clean_df` (clean_text.py lines 20–22): for each row, unpack
`index, text, _, _` and record the in-place update `df['text'][index] =
clean_text(text)`.  A row whose tuple does not have exactly four components
(index plus three data columns) fails to unpack. -/
def CleanText.clean_df (norm : String → String) :
    List (Nat × List String) → List (Nat × String) → PassResult (List (Nat × String))
  | [], acc => .ok acc
  | (idx, cols) :: rest, acc =>
    match cols with
    | [text, _, _] => CleanText.clean_df norm rest (acc ++ [(idx, norm text)])
    | _ => .unpackError acc

/-- `RemoveNonEnglish.collect_non_english_content` (clean_text.py lines 68–81):
for each row, unpack `index, text, _, _`, then classify `text` with the
detector.  `det text = some lang` models `detect` returning a language code,
`det text = none` models `LangDetectException`.  Rows with a language other
than `'en'` go to `other_language_entries`, detection failures go to
`exception_entries`. -/
def RemoveNonEnglish.collect (det : String → Option String) :
    List (Nat × List String) → List (Nat × String × String) → List (Nat × String) →
    PassResult (List (Nat × String × String) × List (Nat × String))
  | [], others, excs => .ok (others, excs)
  | (idx, cols) :: rest, others, excs =>
    match cols with
    | [text, _, _] =>
      match det text with
      | some lang =>
        if lang ≠ "en" then RemoveNonEnglish.collect det rest (others ++ [(idx, text, lang)]) excs
        else RemoveNonEnglish.collect det rest others excs
      | none => RemoveNonEnglish.collect det rest others (excs ++ [(idx, text)])
    | _ => .unpackError (others, excs)

/-- `RemoveNonEnglish.__init__` + `remove` (clean_text.py lines 52–93): collect
the non-English rows, then drop the exception labels and the other-language
labels from the dataframe, and report `(new df, #exceptions, #other-language,
original_size - new size)`.  `none` models the constructor dying on a
`ValueError` from tuple unpacking. -/
def RemoveNonEnglish.run (det : String → Option String) (df : DataFrame) :
    Option (DataFrame × Nat × Nat × Nat) :=
  match RemoveNonEnglish.collect det df.rows [] [] with
  | .ok (others, excs) =>
    let afterExc := df.rows.filter (fun r => !((excs.map Prod.fst).contains r.1))
    let afterOth := afterExc.filter (fun r => !((others.map Prod.fst).contains r.1))
    some (⟨afterOth⟩, excs.length, others.length, df.rows.length - afterOth.length)
  | .unpackError _ => none

/-- The apostrophe character, U+0027. -/
def apostropheChar : Char := Char.ofNat 39

/-- A negated contraction `<stemPart>'t` (e.g. `don` ↦ `don't`). -/
def contraction (stemPart : String) : String :=
  stemPart ++ String.mk [apostropheChar] ++ "t"

/-- The hardcoded list for `Stopwords('specified')` (clean_text.py line 105). -/
def specifiedStopwords : List String :=
  ["i", "the", "and", "for", "a", "of", "to", "this", "that", "in", "on", "at",
   "so", "with", "as", "was", "is", "are", "be", "it", "have", "has", "you", "your"]

/-- The reserved negation/intensifier words removed from the nltk corpus
(clean_text.py line 112). -/
def reserveWords : List String :=
  ["not", "no", "never", "but", "only", "just", "very", "really", "too",
   contraction "don", contraction "wasn", contraction "didn",
   contraction "can", contraction "won"]

/-- `Stopwords.__init__` (clean_text.py lines 101–116).  `nltkEnglish` is the
external corpus `stopwords.words('english')`.  For `'nltk'`, the corpus is
turned into a set and each reserved word is removed when present (Python's
guarded `set.remove` is total removal, i.e. `Finset.erase`).  Any other kind
leaves the initial empty set. -/
def Stopwords.build (nltkEnglish : List String) (stopwords_type : String) : Finset String :=
  if stopwords_type = "specified" then specifiedStopwords.toFinset
  else if stopwords_type = "nltk" then
    reserveWords.foldl (fun s w => s.erase w) nltkEnglish.toFinset
  else ∅

/-- One invocation of the external tokenizer, recording the keyword arguments
passed on line 75 of `sentiment_predictor.py`. -/
structure TokenizerCall where
  text : String
  truncation : Bool
  padding : Bool
  max_length : Nat
deriving DecidableEq

/-- `self.labels` of `SentimentPredictor` (sentiment_predictor.py line 25). -/
def sentimentLabels : List String := ["negative", "neutral", "positive"]

/-- Python's `str.strip()` (ASCII whitespace fragment): drop whitespace from
both ends. -/
def pyStrip (s : String) : String :=
  String.mk (((s.data.dropWhile (fun c => isWsChar c)).reverse.dropWhile
    (fun c => isWsChar c)).reverse)

/-- `SentimentPredictor.predict` on a string input (sentiment_predictor.py
lines 60–96), instrumented with the list of tokenizer invocations it makes.
`det` models `self.get_language` (i.e. `langdetect.detect`), `tokenizer` the
external tokenizer, `model_product`/`model_video` the two classification
heads composed with `torch.argmax` over the three logits.  Returns `none`
for the source's early `return None` paths. -/
def SentimentPredictor.predictT {TokOut : Type}
    (det : String → Option String) (tokenizer : TokenizerCall → TokOut)
    (model_product model_video : TokOut → Fin 3) (comment : String) :
    Option (String × String) × List TokenizerCall :=
  if pyStrip comment = "" then (none, [])
  else
    match det comment with
    | none => (none, [])
    | some lang =>
      if lang ≠ "en" then (none, [])
      else
        let cleaned := SentimentPredictor.clean_text (fun s => s) false comment
        let call : TokenizerCall := ⟨cleaned, true, true, 128⟩
        let toks := tokenizer call
        (some (sentimentLabels.get (model_product toks),
               sentimentLabels.get (model_video toks)), [call])

/-- A Python value that might be passed to `predict` (strings plus a few
representative non-string shapes). -/
inductive PyValue where
  | str (s : String)
  | int (n : Int)
  | bool (b : Bool)
  | pyNone

/-- Whether a `PyValue` is a Python `str`. -/
def PyValue.isStr : PyValue → Bool
  | .str _ => true
  | _ => false

/-- `SentimentPredictor.predict` including the `isinstance` guard
(sentiment_predictor.py lines 58–59): any non-string input raises `TypeError`
before language detection, normalization or inference. -/
def SentimentPredictor.predictChecked {TokOut : Type}
    (det : String → Option String) (tokenizer : TokenizerCall → TokOut)
    (model_product model_video : TokOut → Fin 3) (v : PyValue) :
    Except String (Option (String × String)) :=
  match v with
  | .str s => .ok (SentimentPredictor.predictT det tokenizer model_product model_video s).1
  | _ => .error "Input comment must be a string."

/-- The langdetect call interface (spec §6: "deterministic given a fixed
seed").  `detect_seeded s text` is the detector's outcome when its RNG is
seeded with `s`; a call made while `DetectorFactory.seed` is unset (`none`)
consumes a fresh draw `rngDraw` instead.  `clean_text.py` line 54 sets the
global seed to `0` before any detection; `sentiment_predictor.py` never
assigns it. -/
def detectWithFactory (detect_seeded : Nat → String → Option String)
    (seed : Option Nat) (rngDraw : Nat) (text : String) : Option String :=
  match seed with
  | some s => detect_seeded s text
  | none => detect_seeded rngDraw text

/-- The output alphabet claimed for the normalizer: the regex class plus space. -/
def allowedOutChar (c : Char) : Bool := allowedChar c || c = ' '

/-- One spec-conforming behaviour of the external detector (deterministic for
each seed, spec §6) under which runs seeded differently disagree on an
ambiguous text. -/
def detKernelSplit : Nat → String → Option String :=
  fun s _ => if s = 0 then some "en" else some "es"

/-- The text of a row: `itertuples` binds the first data column to `text`. -/
def rowText (r : Nat × List String) : String := r.2.headD ""

/-- The `other_language_entries` contribution of one row (clean_text.py
lines 75–77). -/
def othEntry (det : String → Option String) (r : Nat × List String) :
    Option (Nat × String × String) :=
  match det (rowText r) with
  | some lang => if lang = "en" then none else some (r.1, rowText r, lang)
  | none => none

/-- The `exception_entries` contribution of one row (clean_text.py
lines 78–80). -/
def excEntry (det : String → Option String) (r : Nat × List String) :
    Option (Nat × String) :=
  match det (rowText r) with
  | some _ => none
  | none => some (r.1, rowText r)

/-- A concrete detector for the C1 witness: English, Spanish, or failure. -/
def detWitness : String → Option String :=
  fun t => if t = "good" then some "en" else if t = "hola" then some "es" else none

/-- A concrete three-column dataset for the C1 witness. -/
def dfWitness : DataFrame :=
  ⟨[(0, ["good", "u", "v"]), (1, ["hola", "u", "v"]), (2, ["zz", "u", "v"])]⟩

/-- A two-column dataset for the C10 witness. -/
def rowsTwoCols : List (Nat × List String) := [(0, ["a", "b"]), (1, ["c", "d"])]

/-! ### Helper lemmas -/

lemma replChar_allowedOut (c : Char) : allowedOutChar (replChar c) = true := by
  simp only [replChar]
  by_cases h : allowedChar c = true
  · simp [allowedOutChar, h]
  · simp [h, allowedOutChar]

lemma replChar_id_of_allowedOut (c : Char) (h : allowedOutChar c = true) : replChar c = c := by
  simp only [allowedOutChar, Bool.or_eq_true, decide_eq_true_eq] at h
  rcases h with h | h
  · simp [replChar, h]
  · subst h; decide

lemma lowerChar_id_of_allowedOut (c : Char) (h : allowedOutChar c = true) : lowerChar c = c := by
  unfold lowerChar
  rw [if_neg]
  rintro ⟨h1, h2⟩
  simp only [allowedOutChar, allowedChar, Bool.or_eq_true, Bool.and_eq_true,
    decide_eq_true_eq] at h
  rcases h with (((⟨ha, _⟩ | ⟨_, h9⟩) | hq) | he) | hs
  · exact absurd (le_trans ha h2) (by decide)
  · exact absurd (le_trans h1 h9) (by decide)
  · subst hq; exact absurd h1 (by decide)
  · subst he; exact absurd h1 (by decide)
  · subst hs; exact absurd h1 (by decide)

lemma wordsAux_sub (l : List Char) : ∀ (acc : List Char) (w : List Char),
    w ∈ wordsAux l acc → ∀ c ∈ w, c ∈ l ∨ c ∈ acc := by
  induction l with
  | nil =>
    intro acc w hw c hc
    simp only [wordsAux] at hw
    by_cases ha : acc = []
    · simp [ha] at hw
    · rw [if_neg ha] at hw
      simp only [List.mem_singleton] at hw
      subst hw
      exact Or.inr (List.mem_reverse.mp hc)
  | cons a as ih =>
    intro acc w hw c hc
    by_cases ha : isWsChar a = true
    · rw [wordsAux, if_pos ha] at hw
      by_cases hacc : acc = []
      · rw [if_pos hacc] at hw
        rcases ih [] w hw c hc with h | h
        · exact Or.inl (List.mem_cons_of_mem a h)
        · simp at h
      · rw [if_neg hacc] at hw
        rcases List.mem_cons.mp hw with rfl | hw'
        · exact Or.inr (List.mem_reverse.mp hc)
        · rcases ih [] w hw' c hc with h | h
          · exact Or.inl (List.mem_cons_of_mem a h)
          · simp at h
    · rw [wordsAux, if_neg ha] at hw
      rcases ih (a :: acc) w hw c hc with h | h
      · exact Or.inl (List.mem_cons_of_mem a h)
      · rcases List.mem_cons.mp h with rfl | h'
        · exact Or.inl (List.mem_cons_self _ _)
        · exact Or.inr h'

lemma mem_of_mem_words (l : List Char) (w : List Char) (hw : w ∈ words l) (c : Char)
    (hc : c ∈ w) : c ∈ l := by
  rcases wordsAux_sub l [] w hw c hc with h | h
  · exact h
  · simp at h

lemma wordsAux_wellformed (l : List Char) : ∀ (acc : List Char),
    (∀ c ∈ acc, isWsChar c = false) → ∀ w ∈ wordsAux l acc,
    w ≠ [] ∧ ∀ c ∈ w, isWsChar c = false := by
  induction l with
  | nil =>
    intro acc hacc w hw
    simp only [wordsAux] at hw
    by_cases ha : acc = []
    · simp [ha] at hw
    · rw [if_neg ha] at hw
      simp only [List.mem_singleton] at hw
      subst hw
      refine ⟨by simpa using ha, fun c hc => hacc c (List.mem_reverse.mp hc)⟩
  | cons a as ih =>
    intro acc hacc w hw
    by_cases ha : isWsChar a = true
    · rw [wordsAux, if_pos ha] at hw
      by_cases hacc0 : acc = []
      · rw [if_pos hacc0] at hw
        exact ih [] (by simp) w hw
      · rw [if_neg hacc0] at hw
        rcases List.mem_cons.mp hw with rfl | hw'
        · exact ⟨by simpa using hacc0, fun c hc => hacc c (List.mem_reverse.mp hc)⟩
        · exact ih [] (by simp) w hw'
    · rw [wordsAux, if_neg ha] at hw
      refine ih (a :: acc) ?_ w hw
      intro c hc
      rcases List.mem_cons.mp hc with rfl | h'
      · simpa using ha
      · exact hacc c h'

lemma words_wellformed (l : List Char) : ∀ w ∈ words l,
    w ≠ [] ∧ ∀ c ∈ w, isWsChar c = false :=
  wordsAux_wellformed l [] (by simp)

lemma mem_joinWords (ws : List (List Char)) (c : Char) (hc : c ∈ joinWords ws) :
    (∃ w ∈ ws, c ∈ w) ∨ c = ' ' := by
  induction ws with
  | nil => simp [joinWords] at hc
  | cons w ws ih =>
    cases ws with
    | nil =>
      simp only [joinWords] at hc
      exact Or.inl ⟨w, by simp, hc⟩
    | cons w2 ws2 =>
      simp only [joinWords, List.mem_append, List.mem_cons] at hc
      rcases hc with h | rfl | h
      · exact Or.inl ⟨w, by simp, h⟩
      · exact Or.inr rfl
      · rcases ih h with ⟨w', hw', hc'⟩ | rfl
        · exact Or.inl ⟨w', List.mem_cons_of_mem _ hw', hc'⟩
        · exact Or.inr rfl

lemma mem_cleanChars (l : List Char) (c : Char) (hc : c ∈ cleanChars l) :
    allowedOutChar c = true := by
  unfold cleanChars collapseWs at hc
  rcases mem_joinWords _ _ hc with ⟨w, hw, hcw⟩ | rfl
  · have hmem : c ∈ (l.map lowerChar).map replChar := mem_of_mem_words _ _ hw _ hcw
    simp only [List.mem_map] at hmem
    obtain ⟨d, _, rfl⟩ := hmem
    exact replChar_allowedOut d
  · decide

lemma wordsAux_append_nonws (w : List Char) (hw : ∀ c ∈ w, isWsChar c = false)
    (l acc : List Char) : wordsAux (w ++ l) acc = wordsAux l (w.reverse ++ acc) := by
  induction w generalizing acc with
  | nil => simp
  | cons a w ih =>
    have ha : isWsChar a = false := hw a (List.mem_cons_self _ _)
    rw [List.cons_append, wordsAux, if_neg (by simp [ha])]
    rw [ih (fun c hc => hw c (List.mem_cons_of_mem _ hc)) (a :: acc)]
    simp

lemma words_single (w : List Char) (hne : w ≠ []) (hw : ∀ c ∈ w, isWsChar c = false) :
    words w = [w] := by
  unfold words
  have := wordsAux_append_nonws w hw [] []
  simp only [List.append_nil] at this
  rw [this]
  simp only [wordsAux]
  rw [if_neg (by simpa using hne)]
  simp

lemma words_joinWords (ws : List (List Char))
    (h : ∀ w ∈ ws, w ≠ [] ∧ ∀ c ∈ w, isWsChar c = false) :
    words (joinWords ws) = ws := by
  induction ws with
  | nil => rfl
  | cons w ws ih =>
    obtain ⟨hne, hnw⟩ := h w (List.mem_cons_self _ _)
    cases ws with
    | nil => simpa only [joinWords] using words_single w hne hnw
    | cons w2 ws2 =>
      show words (w ++ ' ' :: joinWords (w2 :: ws2)) = w :: w2 :: ws2
      unfold words
      rw [wordsAux_append_nonws w hnw _ [], List.append_nil]
      rw [wordsAux, if_pos (by decide), if_neg (by simpa using hne)]
      rw [List.reverse_reverse]
      have := ih (fun x hx => h x (List.mem_cons_of_mem _ hx))
      unfold words at this
      rw [this]

lemma map_id_of_fixed {α : Type} (f : α → α) (l : List α) (h : ∀ a ∈ l, f a = a) :
    l.map f = l := by
  induction l with
  | nil => rfl
  | cons a l ih =>
    rw [List.map_cons, h a (List.mem_cons_self _ _),
      ih (fun x hx => h x (List.mem_cons_of_mem _ hx))]

lemma cleanChars_idem (l : List Char) : cleanChars (cleanChars l) = cleanChars l := by
  have hall : ∀ c ∈ cleanChars l, allowedOutChar c = true := mem_cleanChars l
  have h1 : (cleanChars l).map lowerChar = cleanChars l :=
    map_id_of_fixed _ _ (fun c hc => lowerChar_id_of_allowedOut c (hall c hc))
  have h2 : (cleanChars l).map replChar = cleanChars l :=
    map_id_of_fixed _ _ (fun c hc => replChar_id_of_allowedOut c (hall c hc))
  conv_lhs => rw [cleanChars, h1, h2]
  show collapseWs (cleanChars l) = cleanChars l
  have hwf : ∀ w ∈ words ((l.map lowerChar).map replChar),
      w ≠ [] ∧ ∀ c ∈ w, isWsChar c = false := words_wellformed _
  show joinWords (words (cleanChars l)) = cleanChars l
  rw [show cleanChars l = joinWords (words ((l.map lowerChar).map replChar)) from rfl]
  rw [words_joinWords _ hwf]

lemma notMem_foldl_erase {α : Type} [DecidableEq α] (ws : List α) (s : Finset α)
    (w : α) (h : w ∉ s) : w ∉ ws.foldl (fun s x => s.erase x) s := by
  induction ws generalizing s with
  | nil => simpa using h
  | cons x rest ih =>
    simp only [List.foldl_cons]
    exact ih _ (fun hmem => h (Finset.mem_of_mem_erase hmem))

lemma mem_notMem_foldl_erase {α : Type} [DecidableEq α] (ws : List α) (s : Finset α)
    (w : α) (h : w ∈ ws) : w ∉ ws.foldl (fun s x => s.erase x) s := by
  induction ws generalizing s with
  | nil => simp at h
  | cons x rest ih =>
    simp only [List.foldl_cons]
    rcases List.mem_cons.mp h with rfl | h'
    · by_cases hr : w ∈ rest
      · exact ih _ hr
      · exact notMem_foldl_erase rest _ w (Finset.not_mem_erase w s)
    · exact ih _ h'

lemma collect_ok (det : String → Option String) (rows : List (Nat × List String))
    (hshape : ∀ r ∈ rows, r.2.length = 3) :
    ∀ others excs, RemoveNonEnglish.collect det rows others excs
      = .ok (others ++ rows.filterMap (othEntry det),
             excs ++ rows.filterMap (excEntry det)) := by
  induction rows with
  | nil => intro others excs; simp [RemoveNonEnglish.collect]
  | cons r rest ih =>
    intro others excs
    obtain ⟨i, cols⟩ := r
    obtain ⟨a, b, c, hcols⟩ :=
      List.length_eq_three.mp (hshape (i, cols) (List.mem_cons_self _ _))
    subst hcols
    have hrest : ∀ r ∈ rest, r.2.length = 3 :=
      fun r hr => hshape r (List.mem_cons_of_mem _ hr)
    have htext : rowText (i, [a, b, c]) = a := rfl
    cases hdet : det a with
    | none =>
      rw [show RemoveNonEnglish.collect det ((i, [a, b, c]) :: rest) others excs
          = RemoveNonEnglish.collect det rest others (excs ++ [(i, a)]) by
        simp [RemoveNonEnglish.collect, hdet]]
      rw [ih hrest]
      simp [othEntry, excEntry, htext, hdet, List.filterMap_cons]
    | some lang =>
      by_cases hl : lang = "en"
      · subst hl
        rw [show RemoveNonEnglish.collect det ((i, [a, b, c]) :: rest) others excs
            = RemoveNonEnglish.collect det rest others excs by
          simp [RemoveNonEnglish.collect, hdet]]
        rw [ih hrest]
        simp [othEntry, excEntry, htext, hdet, List.filterMap_cons]
      · rw [show RemoveNonEnglish.collect det ((i, [a, b, c]) :: rest) others excs
            = RemoveNonEnglish.collect det rest (others ++ [(i, a, lang)]) excs by
          simp [RemoveNonEnglish.collect, hdet, hl]]
        rw [ih hrest]
        simp [othEntry, excEntry, htext, hdet, hl, List.filterMap_cons]

lemma clean_df_ok (norm : String → String) (rows : List (Nat × List String))
    (hshape : ∀ r ∈ rows, r.2.length = 3) :
    ∀ acc, CleanText.clean_df norm rows acc
      = .ok (acc ++ rows.map (fun r => (r.1, norm (rowText r)))) := by
  induction rows with
  | nil => intro acc; simp [CleanText.clean_df]
  | cons r rest ih =>
    intro acc
    obtain ⟨i, cols⟩ := r
    obtain ⟨a, b, c, hcols⟩ :=
      List.length_eq_three.mp (hshape (i, cols) (List.mem_cons_self _ _))
    subst hcols
    have hrest : ∀ r ∈ rest, r.2.length = 3 :=
      fun r hr => hshape r (List.mem_cons_of_mem _ hr)
    rw [show CleanText.clean_df norm ((i, [a, b, c]) :: rest) acc
        = CleanText.clean_df norm rest (acc ++ [(i, norm a)]) from rfl]
    rw [ih hrest]
    simp [rowText]

lemma clean_df_err (norm : String → String) (i : Nat) (cols : List String)
    (rest : List (Nat × List String)) (acc : List (Nat × String))
    (hlen : cols.length ≠ 3) :
    CleanText.clean_df norm ((i, cols) :: rest) acc = .unpackError acc := by
  rcases cols with _ | ⟨a, _ | ⟨b, _ | ⟨c, _ | ⟨d, tl⟩⟩⟩⟩
  · rfl
  · rfl
  · rfl
  · exact absurd rfl hlen
  · rfl

lemma collect_err (det : String → Option String) (i : Nat) (cols : List String)
    (rest : List (Nat × List String)) (others : List (Nat × String × String))
    (excs : List (Nat × String)) (hlen : cols.length ≠ 3) :
    RemoveNonEnglish.collect det ((i, cols) :: rest) others excs
      = .unpackError (others, excs) := by
  rcases cols with _ | ⟨a, _ | ⟨b, _ | ⟨c, _ | ⟨d, tl⟩⟩⟩⟩
  · rfl
  · rfl
  · rfl
  · exact absurd rfl hlen
  · rfl

lemma excEntry_fst (det : String → Option String) (r : Nat × List String)
    (e : Nat × String) (h : excEntry det r = some e) : e.1 = r.1 := by
  unfold excEntry at h
  cases hdet : det (rowText r) with
  | some lang => rw [hdet] at h; simp at h
  | none =>
    rw [hdet] at h
    simp only [Option.some.injEq] at h
    rw [← h]

lemma othEntry_fst (det : String → Option String) (r : Nat × List String)
    (e : Nat × String × String) (h : othEntry det r = some e) : e.1 = r.1 := by
  unfold othEntry at h
  cases hdet : det (rowText r) with
  | some lang =>
    rw [hdet] at h
    by_cases hl : lang = "en"
    · simp [hl] at h
    · simp only [if_neg hl, Option.some.injEq] at h
      rw [← h]
  | none => rw [hdet] at h; simp at h

lemma excEntry_ne_none_iff (det : String → Option String) (r : Nat × List String) :
    excEntry det r ≠ none ↔ det (rowText r) = none := by
  unfold excEntry
  cases det (rowText r) <;> simp

lemma othEntry_ne_none_iff (det : String → Option String) (r : Nat × List String) :
    othEntry det r ≠ none ↔ (det (rowText r) ≠ none ∧ det (rowText r) ≠ some "en") := by
  unfold othEntry
  cases det (rowText r) with
  | none => simp
  | some lang =>
    by_cases hl : lang = "en"
    · subst hl; simp
    · simp [hl]

lemma contains_fst_filterMap_iff {γ : Type} (rows : List (Nat × List String))
    (hnodup : (rows.map Prod.fst).Nodup)
    (sel : (Nat × List String) → Option (Nat × γ))
    (hsel : ∀ r e, sel r = some e → e.1 = r.1)
    (r : Nat × List String) (hr : r ∈ rows) :
    ((rows.filterMap sel).map Prod.fst).contains r.1 = true ↔ sel r ≠ none := by
  rw [List.elem_iff]
  constructor
  · intro hmem
    simp only [List.mem_map, List.mem_filterMap] at hmem
    obtain ⟨e, ⟨r', hr', hsr'⟩, hfst⟩ := hmem
    have h1 : e.1 = r'.1 := hsel r' e hsr'
    have : r' = r := List.inj_on_of_nodup_map hnodup hr' hr (by rw [← h1, hfst])
    subst this
    rw [hsr']
    simp
  · intro hne
    cases hs : sel r with
    | none => exact absurd hs hne
    | some e =>
      simp only [List.mem_map, List.mem_filterMap]
      exact ⟨e, ⟨r, hr, hs⟩, hsel r e hs⟩

lemma len_filterMap_excEntry (det : String → Option String)
    (rows : List (Nat × List String)) :
    (rows.filterMap (excEntry det)).length
      = (rows.filter (fun r => det (rowText r) = none)).length := by
  induction rows with
  | nil => rfl
  | cons r rest ih =>
    rw [List.filter_cons]
    cases hdet : det (rowText r) with
    | none =>
      rw [List.filterMap_cons_some (show excEntry det r = some (r.1, rowText r) by
        simp [excEntry, hdet])]
      rw [if_pos (by simp [hdet])]
      simp only [List.length_cons]
      rw [ih]
    | some lang =>
      rw [List.filterMap_cons_none (show excEntry det r = none by simp [excEntry, hdet])]
      rw [if_neg (by simp [hdet])]
      exact ih

lemma len_filterMap_othEntry (det : String → Option String)
    (rows : List (Nat × List String)) :
    (rows.filterMap (othEntry det)).length
      = (rows.filter (fun r =>
          det (rowText r) ≠ none ∧ det (rowText r) ≠ some "en")).length := by
  induction rows with
  | nil => rfl
  | cons r rest ih =>
    rw [List.filter_cons]
    cases hdet : det (rowText r) with
    | none =>
      rw [List.filterMap_cons_none (show othEntry det r = none by simp [othEntry, hdet])]
      rw [if_neg (by simp [hdet])]
      exact ih
    | some lang =>
      by_cases hl : lang = "en"
      · subst hl
        rw [List.filterMap_cons_none (show othEntry det r = none by simp [othEntry, hdet])]
        rw [if_neg (by simp [hdet])]
        exact ih
      · rw [List.filterMap_cons_some (show othEntry det r = some (r.1, rowText r, lang) by
          simp [othEntry, hdet, hl])]
        rw [if_pos (by simp [hdet, hl])]
        simp only [List.length_cons]
        rw [ih]

lemma counts_split (det : String → Option String) (rows : List (Nat × List String)) :
    (rows.filter (fun r => det (rowText r) = none)).length
      + (rows.filter (fun r =>
          det (rowText r) ≠ none ∧ det (rowText r) ≠ some "en")).length
      = (rows.filter (fun r => det (rowText r) ≠ some "en")).length := by
  induction rows with
  | nil => rfl
  | cons r rest ih =>
    rw [List.filter_cons, List.filter_cons, List.filter_cons]
    cases hdet : det (rowText r) with
    | none =>
      rw [if_pos (by simp [hdet]), if_neg (by simp [hdet]), if_pos (by simp [hdet])]
      simp only [List.length_cons]
      omega
    | some lang =>
      by_cases hl : lang = "en"
      · subst hl
        rw [if_neg (by simp [hdet]), if_neg (by simp [hdet]), if_neg (by simp [hdet])]
        exact ih
      · rw [if_neg (by simp [hdet]), if_pos (by simp [hdet, hl]), if_pos (by simp [hdet, hl])]
        simp only [List.length_cons]
        omega

lemma kept_split (det : String → Option String) (rows : List (Nat × List String)) :
    (rows.filter (fun r => det (rowText r) = some "en")).length
      + (rows.filter (fun r => det (rowText r) ≠ some "en")).length = rows.length := by
  induction rows with
  | nil => rfl
  | cons r rest ih =>
    rw [List.filter_cons, List.filter_cons]
    by_cases hdet : det (rowText r) = some "en"
    · rw [if_pos (by simp [hdet]), if_neg (by simp [hdet])]
      simp only [List.length_cons]
      omega
    · rw [if_neg (by simp [hdet]), if_pos (by simp [hdet])]
      simp only [List.length_cons]
      omega

lemma kept_filter_eq (det : String → Option String) (rows : List (Nat × List String))
    (hnodup : (rows.map Prod.fst).Nodup) :
    (rows.filter
        (fun r => !(((rows.filterMap (excEntry det)).map Prod.fst).contains r.1))).filter
      (fun r => !(((rows.filterMap (othEntry det)).map Prod.fst).contains r.1))
      = rows.filter (fun r => det (rowText r) = some "en") := by
  rw [List.filter_filter]
  apply List.filter_congr
  intro r hr
  have hE : ((rows.filterMap (excEntry det)).map Prod.fst).contains r.1
      = decide (excEntry det r ≠ none) := by
    rw [Bool.eq_iff_iff, decide_eq_true_eq]
    exact contains_fst_filterMap_iff rows hnodup (excEntry det) (excEntry_fst det) r hr
  have hO : ((rows.filterMap (othEntry det)).map Prod.fst).contains r.1
      = decide (othEntry det r ≠ none) := by
    rw [Bool.eq_iff_iff, decide_eq_true_eq]
    exact contains_fst_filterMap_iff rows hnodup (othEntry det) (othEntry_fst det) r hr
  rw [hE, hO]
  cases hdet : det (rowText r) with
  | none => simp [othEntry, excEntry, hdet]
  | some lang =>
    by_cases hl : lang = "en"
    · subst hl
      simp [othEntry, excEntry, hdet]
    · simp [othEntry, excEntry, hdet, hl]

/-! ### The claims -/

/-- Claim C3: for every input string, the output of the normalizer
`CleanText.clean_text` contains only characters from {a-z, 0-9, space, ?, !}
(provided the external stemmer emits only such characters), and normalizing
the empty string yields the empty string, in every configuration. -/
theorem clean_text_output_charset (ps_stem : String → String)
    (hps : ∀ w : String, ∀ c ∈ (ps_stem w).data, allowedOutChar c = true) :
    (∀ (do_stemming : Bool) (stopwords : List String) (text : String),
      ∀ c ∈ (CleanText.clean_text ps_stem do_stemming stopwords text).data,
        allowedOutChar c = true)
    ∧ (∀ (do_stemming : Bool) (stopwords : List String),
        CleanText.clean_text ps_stem do_stemming stopwords "" = "") := by
  constructor
  · intro b sw text c hc
    simp only [CleanText.clean_text] at hc
    by_cases hcond : (b || decide (0 < sw.length)) = true
    · rw [if_pos hcond] at hc
      by_cases hb : b = true
      · rw [if_pos hb] at hc
        rcases mem_joinWords _ _ hc with ⟨w, hw, hcw⟩ | rfl
        · simp only [List.mem_map] at hw
          obtain ⟨x, _, rfl⟩ := hw
          exact hps _ c hcw
        · decide
      · rw [if_neg hb] at hc
        rcases mem_joinWords _ _ hc with ⟨w, hw, hcw⟩ | rfl
        · exact mem_cleanChars _ _
            (mem_of_mem_words _ _ (List.mem_of_mem_filter hw) _ hcw)
        · decide
    · rw [if_neg hcond] at hc
      exact mem_cleanChars _ _ hc
  · intro b sw
    simp only [CleanText.clean_text]
    by_cases hcond : (b || decide (0 < sw.length)) = true
    · rw [if_pos hcond]
      by_cases hb : b = true
      · rw [if_pos hb]
        rfl
      · rw [if_neg hb]
        rfl
    · rw [if_neg hcond]
      rfl

/-- Witness for C3: a concrete run through the stemming/stopword branch with a
stemmer whose outputs stay in the allowed character set. -/
theorem clean_text_output_charset_witness :
    CleanText.clean_text (fun _ => "stem") true ["the"] "" = "" :=
  (clean_text_output_charset (fun _ => "stem")
    (fun _ => (by decide : ∀ c ∈ ("stem" : String).data, allowedOutChar c = true))).2 true ["the"]

/-- Claim C4: the normalizer with stemming disabled and an empty stopword list
is idempotent. -/
theorem clean_text_idempotent (ps_stem : String → String) (x : String) :
    CleanText.clean_text ps_stem false [] (CleanText.clean_text ps_stem false [] x)
      = CleanText.clean_text ps_stem false [] x := by
  show String.mk (cleanChars (String.mk (cleanChars x.data)).data)
        = String.mk (cleanChars x.data)
  rw [show (String.mk (cleanChars x.data)).data = cleanChars x.data from rfl, cleanChars_idem]

/-- Claim C9: the normalization inside `SentimentPredictor.predict` (default
configuration: no stemming) returns exactly the same string as
`CleanText.clean_text` with stemming disabled and an empty stopword list, for
any choice of the two external stemmers. -/
theorem predictor_clean_text_eq_dataset_clean_text
    (ps1 ps2 : String → String) (text : String) :
    SentimentPredictor.clean_text ps1 false text
      = CleanText.clean_text ps2 false [] text := rfl

/-- Claim C2: `predict` returns an absent result exactly when the trimmed
input is empty, or the detector classifies the comment as a language other
than English, or detection fails (`det comment = none`, the caught
`LangDetectException`) — so a detection failure is never propagated. -/
theorem predict_absent_iff {TokOut : Type}
    (det : String → Option String) (tokenizer : TokenizerCall → TokOut)
    (model_product model_video : TokOut → Fin 3) (comment : String) :
    (SentimentPredictor.predictT det tokenizer model_product model_video comment).1 = none
      ↔ (pyStrip comment = "" ∨ det comment ≠ some "en") := by
  unfold SentimentPredictor.predictT
  by_cases ht : pyStrip comment = ""
  · simp [ht]
  · rw [if_neg ht]
    cases hdet : det comment with
    | none => simp [ht, hdet]
    | some lang =>
      by_cases hl : lang = "en"
      · subst hl
        simp [ht, hdet]
      · simp [ht, hdet, hl]

/-- Claim C5: `predict` signals its `TypeError` exactly on non-string input,
and on such input the outcome is the fixed error value, independent of the
detector, tokenizer and models (so the failure happens before any of them is
consulted). -/
theorem predict_type_error_iff_nonstring {TokOut : Type}
    (det : String → Option String) (tokenizer : TokenizerCall → TokOut)
    (model_product model_video : TokOut → Fin 3) (v : PyValue) :
    ((∃ msg, SentimentPredictor.predictChecked det tokenizer model_product model_video v
        = .error msg) ↔ v.isStr = false)
    ∧ (v.isStr = false →
        SentimentPredictor.predictChecked det tokenizer model_product model_video v
          = .error "Input comment must be a string.") := by
  cases v <;> simp [SentimentPredictor.predictChecked, PyValue.isStr]

/-- Witness for C5: `predict(42)` yields the `TypeError`. -/
theorem predict_type_error_witness :
    SentimentPredictor.predictChecked (fun _ => some "en") (fun (_ : TokenizerCall) => ())
        (fun _ => (0 : Fin 3)) (fun _ => (0 : Fin 3)) (PyValue.int 42)
      = .error "Input comment must be a string." :=
  (predict_type_error_iff_nonstring (fun _ => some "en") (fun _ => ())
    (fun _ => (0 : Fin 3)) (fun _ => (0 : Fin 3)) (PyValue.int 42)).2 rfl

/-- Claim C8: every tokenizer invocation made by `predict` passes
`max_length = 128`, `truncation = True` and `padding = True`. -/
theorem predict_tokenizer_args {TokOut : Type}
    (det : String → Option String) (tokenizer : TokenizerCall → TokOut)
    (model_product model_video : TokOut → Fin 3) (comment : String)
    (call : TokenizerCall)
    (hcall : call ∈
      (SentimentPredictor.predictT det tokenizer model_product model_video comment).2) :
    call.max_length = 128 ∧ call.truncation = true ∧ call.padding = true := by
  unfold SentimentPredictor.predictT at hcall
  by_cases ht : pyStrip comment = ""
  · simp [ht] at hcall
  · rw [if_neg ht] at hcall
    cases hdet : det comment with
    | none => simp [hdet] at hcall
    | some lang =>
      rw [hdet] at hcall
      by_cases hl : lang = "en"
      · subst hl
        simp only [ne_eq, not_true_eq_false, if_false, List.mem_singleton] at hcall
        subst hcall
        exact ⟨rfl, rfl, rfl⟩
      · simp [hl] at hcall

/-- Witness for C8: a concrete comment that reaches tokenization produces a
call with the fixed arguments. -/
theorem predict_tokenizer_args_witness :
    (⟨"hello", true, true, 128⟩ : TokenizerCall).max_length = 128
      ∧ (⟨"hello", true, true, 128⟩ : TokenizerCall).truncation = true
      ∧ (⟨"hello", true, true, 128⟩ : TokenizerCall).padding = true :=
  predict_tokenizer_args (fun _ => some "en") (fun (_ : TokenizerCall) => ())
    (fun _ => (0 : Fin 3)) (fun _ => (0 : Fin 3)) "hello"
    ⟨"hello", true, true, 128⟩ (by decide)

/-- Claim C7: the stopword set built with kind `'nltk'` contains none of the
reserved negation/intensifier words, whatever the external corpus holds. -/
theorem nltk_stopwords_reserve_free (nltkEnglish : List String) :
    ∀ w ∈ reserveWords, w ∉ Stopwords.build nltkEnglish "nltk" := by
  intro w hw
  unfold Stopwords.build
  rw [if_neg (by decide), if_pos rfl]
  exact mem_notMem_foldl_erase _ _ _ hw

/-- Witness for C7: `'not'` is reserved and absent even when the corpus
contains it. -/
theorem nltk_stopwords_reserve_free_witness :
    "not" ∉ Stopwords.build ["not", "the", "a"] "nltk" :=
  nltk_stopwords_reserve_free ["not", "the", "a"] "not" (by decide)

/-- Claim C6 (code bug in the prediction path): with the factory seed set to 0
— as `clean_text.py` line 54 does before the dataset-cleaning pass — the
detection outcome is independent of the RNG draw, so two calls on identical
text agree; but `sentiment_predictor.py` never assigns `DetectorFactory.seed`,
and with the seed unset there is a spec-conforming detector under which two
calls on identical text disagree. -/
theorem detect_seeded_deterministic_unseeded_not :
    (∀ rng1 rng2 : Nat,
      detectWithFactory detKernelSplit (some 0) rng1 "hello hola"
        = detectWithFactory detKernelSplit (some 0) rng2 "hello hola")
    ∧ detectWithFactory detKernelSplit none 0 "hello hola"
        ≠ detectWithFactory detKernelSplit none 1 "hello hola" := by
  refine ⟨fun rng1 rng2 => rfl, ?_⟩
  decide

/-- Claim C1: on a dataset with unique row identifiers (and the three-column
shape both passes require), `RemoveNonEnglish` keeps exactly the rows the
detector classifies as English, the resulting size is `N - K` (stated
additively: kept + K = N), the reported removed count is `K`, and `K` splits
into the undetectable count plus the other-language count. -/
theorem removeNonEnglish_run_spec (det : String → Option String) (df : DataFrame)
    (hnodup : (df.rows.map Prod.fst).Nodup)
    (hshape : ∀ r ∈ df.rows, r.2.length = 3) :
    (RemoveNonEnglish.run det df
      = some (⟨df.rows.filter (fun r => det (rowText r) = some "en")⟩,
              (df.rows.filter (fun r => det (rowText r) = none)).length,
              (df.rows.filter (fun r =>
                  det (rowText r) ≠ none ∧ det (rowText r) ≠ some "en")).length,
              (df.rows.filter (fun r => det (rowText r) ≠ some "en")).length))
    ∧ (df.rows.filter (fun r => det (rowText r) = some "en")).length
        + (df.rows.filter (fun r => det (rowText r) ≠ some "en")).length
        = df.rows.length
    ∧ (df.rows.filter (fun r => det (rowText r) = none)).length
        + (df.rows.filter (fun r =>
            det (rowText r) ≠ none ∧ det (rowText r) ≠ some "en")).length
        = (df.rows.filter (fun r => det (rowText r) ≠ some "en")).length := by
  refine ⟨?_, kept_split det df.rows, counts_split det df.rows⟩
  have hc := collect_ok det df.rows hshape [] []
  simp only [List.nil_append] at hc
  unfold RemoveNonEnglish.run
  rw [hc]
  dsimp only
  rw [kept_filter_eq det df.rows hnodup]
  simp only [Option.some.injEq, Prod.mk.injEq]
  refine ⟨trivial, len_filterMap_excEntry det df.rows, len_filterMap_othEntry det df.rows, ?_⟩
  have h1 := kept_split det df.rows
  have h2 : (df.rows.filter (fun r => det (rowText r) ≠ some "en")).length
      ≤ df.rows.length := List.length_filter_le _ _
  omega

/-- Witness for C1: the filtering spec instantiated on a concrete dataset with
one English, one other-language and one undetectable row. -/
theorem removeNonEnglish_run_spec_witness :
    RemoveNonEnglish.run detWitness dfWitness
      = some (⟨dfWitness.rows.filter (fun r => detWitness (rowText r) = some "en")⟩,
              (dfWitness.rows.filter (fun r => detWitness (rowText r) = none)).length,
              (dfWitness.rows.filter (fun r =>
                  detWitness (rowText r) ≠ none
                    ∧ detWitness (rowText r) ≠ some "en")).length,
              (dfWitness.rows.filter
                  (fun r => detWitness (rowText r) ≠ some "en")).length) :=
  (removeNonEnglish_run_spec detWitness dfWitness (by decide) (by decide)).1

/-- Claim C10: both row-iterating passes destructure each `itertuples` tuple
as `index, text, _, _`, so they complete exactly on datasets whose rows have
three data columns (reading the first column as the text), while on a
rectangular dataset of any other width they raise the unpacking `ValueError`
on the first row, before any row content is processed. -/
theorem passes_require_three_columns (norm : String → String)
    (det : String → Option String) (rows : List (Nat × List String)) :
    ((∀ r ∈ rows, r.2.length = 3) →
      CleanText.clean_df norm rows []
          = .ok (rows.map (fun r => (r.1, norm (rowText r))))
      ∧ RemoveNonEnglish.collect det rows [] []
          = .ok (rows.filterMap (othEntry det), rows.filterMap (excEntry det)))
    ∧ ∀ L, (∀ r ∈ rows, r.2.length = L) → rows ≠ [] → L ≠ 3 →
        CleanText.clean_df norm rows [] = .unpackError []
        ∧ RemoveNonEnglish.collect det rows [] [] = .unpackError ([], []) := by
  constructor
  · intro hshape
    constructor
    · have h := clean_df_ok norm rows hshape []
      simpa using h
    · have h := collect_ok det rows hshape [] []
      simpa using h
  · intro L hL hne h3
    cases rows with
    | nil => exact absurd rfl hne
    | cons r rest =>
      obtain ⟨i, cols⟩ := r
      have h2 : cols.length = L := hL (i, cols) (List.mem_cons_self _ _)
      have hlen : cols.length ≠ 3 := by omega
      exact ⟨clean_df_err norm i cols rest [] hlen,
             collect_err det i cols rest [] [] hlen⟩

/-- Witness for C10: on a two-column dataset both passes fail immediately with
nothing processed. -/
theorem passes_require_three_columns_witness :
    CleanText.clean_df (fun s => s) rowsTwoCols [] = .unpackError []
    ∧ RemoveNonEnglish.collect (fun _ => some "en") rowsTwoCols [] []
        = .unpackError ([], []) :=
  (passes_require_three_columns (fun s => s) (fun _ => some "en") rowsTwoCols).2 2
    (by decide) (by decide) (by decide)
